import Mathlib

/-!
Shallow embedding of `src/app.py` (greenhouse monitoring dashboard).

The SQLite database `hongos.db` holds two tables, `invernaderos` and
`registros`; we model a database state as explicit lists of rows together
with the AUTOINCREMENT counters.  Timestamps (`fecha`, stored by the app as
`"%Y-%m-%d %H:%M:%S"` strings whose lexicographic order is chronological)
are modelled as natural numbers; the REAL metric columns as rationals.
-/

namespace Hongos

/-- A row of the `invernaderos` table (`id INTEGER PRIMARY KEY AUTOINCREMENT`,
`nombre TEXT UNIQUE NOT NULL`). -/
structure Invernadero where
  id : Nat
  nombre : String
deriving DecidableEq, Repr

/-- A row of the `registros` table. -/
structure Registro where
  id : Nat
  invernadero_id : Nat
  fecha : Nat
  temp_max : ℚ
  temp_min : ℚ
  hum_max : ℚ
  hum_min : ℚ
  co2 : ℚ
deriving DecidableEq, Repr

/-- The persistent database state: both tables plus the AUTOINCREMENT
counters for their `id` columns. -/
structure DB where
  invernaderos : List Invernadero
  registros : List Registro
  next_inv_id : Nat
  next_reg_id : Nat
deriving DecidableEq, Repr

/-- The state right after `init_db` on a fresh file: both tables empty,
AUTOINCREMENT starting at 1. -/
def DB.empty : DB := ⟨[], [], 1, 1⟩

/-- Model of `add_invernadero(nombre)`: `INSERT INTO invernaderos (nombre)
VALUES (?)`.  The UNIQUE constraint on `nombre` raises
`sqlite3.IntegrityError` on a duplicate, which the function catches,
returning `False` with the table unchanged; otherwise the row is inserted
and it returns `True`. -/
def add_invernadero (db : DB) (nombre : String) : Bool × DB :=
  if db.invernaderos.any (fun i => i.nombre == nombre) then
    (false, db)
  else
    (true,
      { db with
        invernaderos := db.invernaderos ++ [⟨db.next_inv_id, nombre⟩]
        next_inv_id := db.next_inv_id + 1 })

/-- Model of `rename_invernadero(id, nuevo_nombre)`: `UPDATE invernaderos
SET nombre = ? WHERE id = ?`.  An `IntegrityError` (the new name collides
with a different existing row while the update actually touches a row) is
caught and reported as `False`. -/
def rename_invernadero (db : DB) (id : Nat) (nuevo_nombre : String) : Bool × DB :=
  if db.invernaderos.any (fun i => i.id == id) &&
      db.invernaderos.any (fun i => i.id != id && i.nombre == nuevo_nombre) then
    (false, db)
  else
    (true,
      { db with
        invernaderos :=
          db.invernaderos.map
            (fun i => if i.id == id then { i with nombre := nuevo_nombre } else i) })

/-- Model of `delete_invernadero(id)`: runs `PRAGMA foreign_keys = ON` and then
`DELETE FROM invernaderos WHERE id = ?`; the `ON DELETE CASCADE` foreign key
deletes every `registros` row whose `invernadero_id` equals the id of a
deleted greenhouse row.  If no greenhouse row matches, nothing is deleted
(the cascade only fires for actually deleted parent rows). -/
def delete_invernadero (db : DB) (id : Nat) : DB :=
  if db.invernaderos.any (fun i => i.id == id) then
    { db with
      invernaderos := db.invernaderos.filter (fun i => i.id != id)
      registros := db.registros.filter (fun r => r.invernadero_id != id) }
  else db

/-- Model of `add_registro(inv_id, fecha, t_max, t_min, h_max, h_min, co2)`: a plain
`INSERT INTO registros ...`.  This connection never issues
`PRAGMA foreign_keys = ON`, and SQLite leaves foreign keys OFF by default,
so the insert succeeds even when `inv_id` matches no greenhouse. -/
def add_registro (db : DB) (inv_id : Nat) (fecha : Nat)
    (t_max t_min h_max h_min co2 : ℚ) : DB :=
  { db with
    registros :=
      db.registros ++ [⟨db.next_reg_id, inv_id, fecha, t_max, t_min, h_max, h_min, co2⟩]
    next_reg_id := db.next_reg_id + 1 }

/-- Model of `delete_registro(reg_id)`: `DELETE FROM registros WHERE id = ?`. -/
def delete_registro (db : DB) (reg_id : Nat) : DB :=
  { db with registros := db.registros.filter (fun r => r.id != reg_id) }

/-- A row of the result set of `get_registros`:
`SELECT r.id, i.nombre as Invernadero, r.fecha, r.temp_max, r.temp_min,
r.hum_max, r.hum_min, r.co2`. -/
structure RegistroRow where
  id : Nat
  invernadero : String
  fecha : Nat
  temp_max : ℚ
  temp_min : ℚ
  hum_max : ℚ
  hum_min : ℚ
  co2 : ℚ
deriving DecidableEq, Repr

/-- The inner `JOIN invernaderos i ON r.invernadero_id = i.id`: a registro
produces a result row when a matching greenhouse exists, and is dropped
otherwise. -/
def joinRow (db : DB) (r : Registro) : Option RegistroRow :=
  match db.invernaderos.find? (fun i => i.id == r.invernadero_id) with
  | some i =>
      some ⟨r.id, i.nombre, r.fecha, r.temp_max, r.temp_min, r.hum_max, r.hum_min, r.co2⟩
  | none => none

/-- Model of the optional `WHERE r.invernadero_id = ?` clause.  The Python
code guards it with `if inv_id:`, so both `None` and `0` mean "no filter". -/
def regMatches (inv_id : Option Nat) (r : Registro) : Bool :=
  match inv_id with
  | none => true
  | some n => decide (n = 0) || r.invernadero_id == n

/-- The `ORDER BY r.fecha DESC` ordering as a relation on result rows. -/
def fechaGe (a b : RegistroRow) : Prop := b.fecha ≤ a.fecha

instance : DecidableRel fechaGe := fun a b => Nat.decLe b.fecha a.fecha

instance : IsTotal RegistroRow fechaGe := ⟨fun a b => Nat.le_total b.fecha a.fecha⟩

instance : IsTrans RegistroRow fechaGe := ⟨fun _ _ _ h h' => Nat.le_trans h' h⟩

/-- Model of `get_registros(inv_id=None)`: join `registros` with
`invernaderos`, optionally restrict to one greenhouse, and order by
`fecha` descending.  (In the SQL the WHERE clause applies after the join;
since it only reads registro columns, filtering before joining is the
same relation.) -/
def get_registros (db : DB) (inv_id : Option Nat) : List RegistroRow :=
  List.insertionSort fechaGe
    ((db.registros.filter (regMatches inv_id)).filterMap (joinRow db))

/-! ### The Histórico delete control

In the Histórico view the app reads `all_regs = get_registros()` and only
calls `delete_registro` when the requested id occurs in `all_regs['id']`. -/

/-- Model of the delete block of the Histórico view: the requested id is
checked against the id column of `get_registros()` before
`delete_registro` runs; otherwise only an error message is shown and the
database is untouched. -/
def historico_delete (db : DB) (reg_id : Nat) : DB :=
  if (get_registros db none).any (fun row => row.id == reg_id) then
    delete_registro db reg_id
  else db

/-! ### Startup schema (`init_db`)

Model of the columns of the `registros` table as `init_db` leaves them.
`CREATE TABLE IF NOT EXISTS` keeps an existing table exactly as it is and
otherwise creates the listed columns; `init_db` contains no PRAGMA
table-info check and no ALTER TABLE. -/

/-- Column names of the `registros` table as written in the CREATE TABLE
statement of `init_db`. -/
def registros_cols : List String :=
  ["id", "invernadero_id", "fecha", "temp_max", "temp_min", "hum_max", "hum_min", "co2"]

/-- Model of the effect of `init_db` on the `registros` schema: `none`
stands for "table absent", `some cols` for an existing table with columns
`cols`.  `CREATE TABLE IF NOT EXISTS` is the only schema statement executed. -/
def init_db_registros_schema : Option (List String) → List String
  | some cols => cols
  | none => registros_cols

/-! ### Daily aggregation of the Visualización view

The view computes `df_daily['fecha_dia'] = fecha.dt.date` and then
`groupby('fecha_dia').agg({'temp_max': 'max', 'temp_min': 'min',
'hum_max': 'max', 'hum_min': 'min', 'co2': 'mean'})`, sorted by day. -/

/-- Seconds per calendar day; `dayOf` truncates a timestamp to its day,
modelling `fecha.dt.date`. -/
def dayLen : Nat := 86400

/-- The calendar day of a timestamp (`fecha.dt.date`). -/
def dayOf (t : Nat) : Nat := t / dayLen

/-- A row of the aggregated dataframe `df_grouped`. -/
structure DailyRow where
  fecha_dia : Nat
  temp_max : ℚ
  temp_min : ℚ
  hum_max : ℚ
  hum_min : ℚ
  co2 : ℚ
deriving DecidableEq, Repr

/-- Maximum of a list of rationals (pandas `max` aggregation; the default
value is irrelevant because groups are nonempty). -/
def maxOf : List ℚ → ℚ
  | [] => 0
  | x :: xs => xs.foldl max x

/-- Minimum of a list of rationals (pandas `min` aggregation). -/
def minOf : List ℚ → ℚ
  | [] => 0
  | x :: xs => xs.foldl min x

/-- Arithmetic mean of a list of rationals (pandas `mean` aggregation). -/
def meanOf (l : List ℚ) : ℚ := l.sum / l.length

/-- The distinct calendar days of a dataframe, ascending (pandas `groupby`
sorts group keys; the code additionally applies `sort_values('fecha_dia')`). -/
def groupDays (df : List RegistroRow) : List Nat :=
  List.insertionSort (· ≤ ·) ((df.map (fun r => dayOf r.fecha)).dedup)

/-- The group of readings of one calendar day. -/
def groupFor (df : List RegistroRow) (d : Nat) : List RegistroRow :=
  df.filter (fun r => dayOf r.fecha == d)

/-- The aggregated row of one calendar day, with the aggregations as the
code dictionary specifies them: max, min, max, min, mean. -/
def aggDay (df : List RegistroRow) (d : Nat) : DailyRow :=
  let g := groupFor df d
  ⟨d,
    maxOf (g.map (fun r => r.temp_max)),
    minOf (g.map (fun r => r.temp_min)),
    maxOf (g.map (fun r => r.hum_max)),
    minOf (g.map (fun r => r.hum_min)),
    meanOf (g.map (fun r => r.co2))⟩

/-- Model of `df_grouped`: one aggregated row per distinct calendar day. -/
def df_grouped (df : List RegistroRow) : List DailyRow :=
  (groupDays df).map (aggDay df)

/-! ### PDF export

Model of `export_to_pdf`.  We track the PDF as the ordered list of text
cells drawn so far, together with the y cursor and the page count; chart
images and fonts do not affect the cell sequence. -/

/-- The PDF document state: drawn text cells in order, y cursor, pages. -/
structure Pdf where
  cells : List String
  y : ℚ
  pages : Nat
deriving Repr

/-- FPDF `cell(w, h, txt, border=1)` without a line break: draws a cell,
keeps the y cursor. -/
def Pdf.cell (p : Pdf) (txt : String) : Pdf :=
  { p with cells := p.cells ++ [txt] }

/-- FPDF `ln()`: moves the y cursor down by the height of the last cell row. -/
def Pdf.lnBy (p : Pdf) (h : ℚ) : Pdf :=
  { p with y := p.y + h }

/-- FPDF `cell(0, h, txt, ln=True)`: draws a cell and breaks the line. -/
def Pdf.cellLn (p : Pdf) (txt : String) (h : ℚ) : Pdf :=
  { p with cells := p.cells ++ [txt], y := p.y + h }

/-- FPDF `add_page()`: next page, y cursor back to the top margin. -/
def Pdf.addPage (p : Pdf) : Pdf :=
  { p with pages := p.pages + 1, y := 10 }

/-- Stand-in for `row['fecha'].strftime('%Y-%m-%d %H:%M')` on the abstract
timestamp. -/
def fmtFecha (t : Nat) : String := toString t

/-- The header texts of the data table (`cols` in `export_to_pdf`). -/
def pdfHeaderCols : List String :=
  ["Fecha", "Inv.", "T Máx", "T Mín", "H Máx", "H Mín", "CO2"]

/-- One iteration of the `df.iterrows()` loop of `export_to_pdf`: seven
bordered cells in the source's order, a line break of the row height 6,
then the page-overflow check `if pdf.get_y() > 270: pdf.add_page()`. -/
def emitRow (p : Pdf) (row : RegistroRow) : Pdf :=
  let p1 := p.cell (fmtFecha row.fecha)
  let p2 := p1.cell row.invernadero
  let p3 := p2.cell (toString row.temp_max)
  let p4 := p3.cell (toString row.temp_min)
  let p5 := p4.cell (toString row.hum_max)
  let p6 := p5.cell (toString row.hum_min)
  let p7 := p6.cell (toString row.co2)
  let p8 := p7.lnBy 6
  if p8.y > 270 then p8.addPage else p8

/-- Model of `export_to_pdf(df, ...)`: title cells, a fresh page, the table
caption, the header row, then one table row per reading of `df`. -/
def export_to_pdf (df : List RegistroRow) : Pdf :=
  let p0 : Pdf := { cells := [], y := 10, pages := 1 }
  let p1 := p0.cellLn "Reporte de Monitoreo de Invernaderos" 10
  let p2 := p1.cellLn "Generado el: <fecha actual>" 10
  let p3 := p2.addPage
  let p4 := p3.cellLn "Datos Históricos Filtrados" 10
  let p5 := (pdfHeaderCols.foldl Pdf.cell p4).lnBy 7
  df.foldl emitRow p5

/-! ### Operation sequences and the referential-integrity invariant -/

/-- One user-level database operation of the app. -/
inductive Op where
  | addInv (nombre : String)
  | renameInv (id : Nat) (nuevo_nombre : String)
  | delInv (id : Nat)
  | addReg (inv_id : Nat) (fecha : Nat) (t_max t_min h_max h_min co2 : ℚ)
  | delReg (reg_id : Nat)
deriving Repr

/-- Execution of one operation (return values of the helpers discarded). -/
def execOp (db : DB) : Op → DB
  | .addInv n => (add_invernadero db n).2
  | .renameInv i n => (rename_invernadero db i n).2
  | .delInv i => delete_invernadero db i
  | .addReg i f a b c d e => add_registro db i f a b c d e
  | .delReg i => delete_registro db i

/-- Execution of a sequence of operations, left to right. -/
def execOps (db : DB) (ops : List Op) : DB := ops.foldl execOp db

/-- Referential integrity: every reading references an existing greenhouse. -/
def consistent (db : DB) : Prop :=
  ∀ r ∈ db.registros, ∃ i ∈ db.invernaderos, i.id = r.invernadero_id

instance : DecidablePred consistent := fun db => by
  unfold consistent; infer_instance

/-- The precondition the UI establishes for an operation: `add_registro` is
only issued with the id of a currently existing greenhouse (the form picks
it from the current `invernaderos` list); every other operation is
unconditional. -/
def opOk (db : DB) : Op → Prop
  | .addReg i _ _ _ _ _ _ => ∃ g ∈ db.invernaderos, g.id = i
  | _ => True

/-- A sequence of operations each of which satisfies `opOk` in the state it
actually executes in. -/
def legal : DB → List Op → Prop
  | _, [] => True
  | db, op :: ops => opOk db op ∧ legal (execOp db op) ops

/-! ### Bulk insertion (for the insert-then-query round trip) -/

/-- The metric payload of one reading to insert. -/
structure RegInput where
  fecha : Nat
  t_max : ℚ
  t_min : ℚ
  h_max : ℚ
  h_min : ℚ
  co2 : ℚ
deriving DecidableEq, Repr

/-- N successive `add_registro` calls for one greenhouse. -/
def addAll (db : DB) (inv_id : Nat) (inputs : List RegInput) : DB :=
  inputs.foldl
    (fun s inp =>
      add_registro s inv_id inp.fecha inp.t_max inp.t_min inp.h_max inp.h_min inp.co2)
    db

/-- The registro rows that the successive inserts create, with the
AUTOINCREMENT ids they receive. -/
def mkRegs (start inv_id : Nat) : List RegInput → List Registro
  | [] => []
  | inp :: rest =>
      ⟨start, inv_id, inp.fecha, inp.t_max, inp.t_min, inp.h_max, inp.h_min, inp.co2⟩ ::
        mkRegs (start + 1) inv_id rest

/-- The result row a registro produces when joined with its greenhouse. -/
def rowOf (g : Invernadero) (r : Registro) : RegistroRow :=
  ⟨r.id, g.nombre, r.fecha, r.temp_max, r.temp_min, r.hum_max, r.hum_min, r.co2⟩

/-! ## Theorems -/

/-- C5: for every name that already exists in the `invernaderos` table,
`add_invernadero` returns `False` and leaves the database unchanged; for
every name not present it returns `True` and the name becomes present. -/
theorem add_invernadero_spec (db : DB) (nombre : String) :
    ((∃ i ∈ db.invernaderos, i.nombre = nombre) →
        add_invernadero db nombre = (false, db)) ∧
    ((∀ i ∈ db.invernaderos, i.nombre ≠ nombre) →
        (add_invernadero db nombre).1 = true ∧
        ∃ i ∈ (add_invernadero db nombre).2.invernaderos, i.nombre = nombre) := by
  constructor
  · rintro ⟨i, hi, hn⟩
    have hany : db.invernaderos.any (fun i => i.nombre == nombre) = true :=
      List.any_eq_true.mpr ⟨i, hi, by simp [hn]⟩
    simp [add_invernadero, hany]
  · intro h
    have hany : ¬ db.invernaderos.any (fun i => i.nombre == nombre) = true := by
      rw [List.any_eq_true]
      rintro ⟨i, hi, hn⟩
      exact h i hi (by simpa using hn)
    refine ⟨by simp [add_invernadero, hany], ?_⟩
    refine ⟨⟨db.next_inv_id, nombre⟩, ?_, rfl⟩
    simp [add_invernadero, hany]

/-- C5 witness: on a table containing the single name "A", adding "A" fails
and leaves the state unchanged, while adding "B" succeeds and makes "B"
present. -/
theorem add_invernadero_spec_witness :
    add_invernadero ⟨[⟨1, "A"⟩], [], 2, 1⟩ "A" = (false, ⟨[⟨1, "A"⟩], [], 2, 1⟩) ∧
    ((add_invernadero ⟨[⟨1, "A"⟩], [], 2, 1⟩ "B").1 = true ∧
      ∃ i ∈ (add_invernadero ⟨[⟨1, "A"⟩], [], 2, 1⟩ "B").2.invernaderos,
        i.nombre = "B") :=
  ⟨(add_invernadero_spec ⟨[⟨1, "A"⟩], [], 2, 1⟩ "A").1 ⟨⟨1, "A"⟩, by simp, rfl⟩,
   (add_invernadero_spec ⟨[⟨1, "A"⟩], [], 2, 1⟩ "B").2 (by decide)⟩

/-- C3: for a greenhouse id present in the database, `delete_invernadero`
removes the greenhouse row and every reading referencing it, and keeps
every other greenhouse and every reading of other greenhouses. -/
theorem delete_invernadero_cascades (db : DB) (id : Nat)
    (h : ∃ i ∈ db.invernaderos, i.id = id) :
    (∀ i ∈ (delete_invernadero db id).invernaderos, i.id ≠ id) ∧
    (∀ r ∈ (delete_invernadero db id).registros, r.invernadero_id ≠ id) ∧
    (∀ i ∈ db.invernaderos, i.id ≠ id → i ∈ (delete_invernadero db id).invernaderos) ∧
    (∀ r ∈ db.registros, r.invernadero_id ≠ id → r ∈ (delete_invernadero db id).registros) := by
  obtain ⟨i0, hi0, hid0⟩ := h
  have hany : db.invernaderos.any (fun i => i.id == id) = true :=
    List.any_eq_true.mpr ⟨i0, hi0, by simp [hid0]⟩
  unfold delete_invernadero
  rw [if_pos hany]
  refine ⟨?_, ?_, ?_, ?_⟩
  · intro i hi
    have := (List.mem_filter.mp hi).2
    simpa using this
  · intro r hr
    have := (List.mem_filter.mp hr).2
    simpa using this
  · intro i hi hne
    exact List.mem_filter.mpr ⟨hi, by simpa using hne⟩
  · intro r hr hne
    exact List.mem_filter.mpr ⟨hr, by simpa using hne⟩

/-- C3 witness: deleting greenhouse 1 from a database with greenhouses 1 and
2 and one reading for each removes greenhouse 1 and its reading and keeps
greenhouse 2 and its reading. -/
theorem delete_invernadero_cascades_witness :
    (⟨2, "B"⟩ : Invernadero) ∈
      (delete_invernadero
        ⟨[⟨1, "A"⟩, ⟨2, "B"⟩],
         [⟨1, 1, 0, 20, 10, 90, 70, 400⟩, ⟨2, 2, 5, 21, 11, 91, 71, 410⟩], 3, 3⟩
        1).invernaderos ∧
    (⟨2, 2, 5, 21, 11, 91, 71, 410⟩ : Registro) ∈
      (delete_invernadero
        ⟨[⟨1, "A"⟩, ⟨2, "B"⟩],
         [⟨1, 1, 0, 20, 10, 90, 70, 400⟩, ⟨2, 2, 5, 21, 11, 91, 71, 410⟩], 3, 3⟩
        1).registros :=
  ⟨(delete_invernadero_cascades
      ⟨[⟨1, "A"⟩, ⟨2, "B"⟩],
       [⟨1, 1, 0, 20, 10, 90, 70, 400⟩, ⟨2, 2, 5, 21, 11, 91, 71, 410⟩], 3, 3⟩
      1 ⟨⟨1, "A"⟩, by simp, rfl⟩).2.2.1 ⟨2, "B"⟩ (by simp) (by decide),
   (delete_invernadero_cascades
      ⟨[⟨1, "A"⟩, ⟨2, "B"⟩],
       [⟨1, 1, 0, 20, 10, 90, 70, 400⟩, ⟨2, 2, 5, 21, 11, 91, 71, 410⟩], 3, 3⟩
      1 ⟨⟨1, "A"⟩, by simp, rfl⟩).2.2.2 ⟨2, 2, 5, 21, 11, 91, 71, 410⟩ (by simp) (by decide)⟩

/-- C4 counterexample: `init_db` does not patch a `registros` schema lacking
the `hora` column — after `init_db` runs on such a schema (or creates the
table afresh) the schema still has no `hora` column. -/
theorem init_db_hora_counterexample :
    "hora" ∉ init_db_registros_schema
      (some ["id", "invernadero_id", "fecha", "temp_max", "temp_min",
             "hum_max", "hum_min", "co2"]) ∧
    "hora" ∉ init_db_registros_schema none := by decide

/-- C4 amended: `init_db` performs no runtime check-and-alter migration at
all: it leaves any existing `registros` schema exactly unchanged and creates
a missing table with the eight columns of the CREATE TABLE statement, which
do not include `hora` (date and time are stored combined in `fecha`). -/
theorem init_db_schema_spec (existing : List String) :
    init_db_registros_schema (some existing) = existing ∧
    init_db_registros_schema none = registros_cols ∧
    "hora" ∉ registros_cols :=
  ⟨rfl, rfl, by decide⟩

/-- C6: the Histórico delete control calls `delete_registro` exactly when
the requested id occurs among the ids of `get_registros()`; for any other
id the database is returned unchanged. -/
theorem historico_delete_guard (db : DB) (reg_id : Nat) :
    ((∃ row ∈ get_registros db none, row.id = reg_id) →
        historico_delete db reg_id = delete_registro db reg_id) ∧
    ((∀ row ∈ get_registros db none, row.id ≠ reg_id) →
        historico_delete db reg_id = db) := by
  constructor
  · rintro ⟨row, hrow, hid⟩
    have hany : (get_registros db none).any (fun row => row.id == reg_id) = true :=
      List.any_eq_true.mpr ⟨row, hrow, by simp [hid]⟩
    simp [historico_delete, hany]
  · intro h
    have hany : ¬ (get_registros db none).any (fun row => row.id == reg_id) = true := by
      rw [List.any_eq_true]
      rintro ⟨row, hrow, hid⟩
      exact h row hrow (by simpa using hid)
    simp [historico_delete, hany]

/-- C6 witness: in a database whose only reading has id 1, requesting the
deletion of id 2 from the Histórico view leaves the database unchanged. -/
theorem historico_delete_guard_witness :
    historico_delete ⟨[⟨1, "A"⟩], [⟨1, 1, 0, 20, 10, 90, 70, 400⟩], 2, 2⟩ 2 =
      ⟨[⟨1, "A"⟩], [⟨1, 1, 0, 20, 10, 90, 70, 400⟩], 2, 2⟩ :=
  (historico_delete_guard ⟨[⟨1, "A"⟩], [⟨1, 1, 0, 20, 10, 90, 70, 400⟩], 2, 2⟩ 2).2
    (by decide)

/-- With pairwise distinct registro ids, filtering out one present id keeps
every other element: the original list is a permutation of the removed row
consed onto the filtered list. -/
theorem perm_cons_filter_ne {l : List Registro} {r : Registro} {n : Nat}
    (hnd : (l.map (fun x => x.id)).Nodup) (hr : r ∈ l) (hid : r.id = n) :
    l.Perm (r :: l.filter (fun x => x.id != n)) := by
  induction l with
  | nil => cases hr
  | cons a t ih =>
    rw [List.map_cons, List.nodup_cons] at hnd
    rcases List.mem_cons.mp hr with rfl | hrt
    · have hfr : ((fun x : Registro => x.id != n) r) = false := by simp [hid]
      rw [List.filter_cons_of_neg (by simpa using hfr)]
      have ht : t.filter (fun x => x.id != n) = t := by
        apply List.filter_eq_self.mpr
        intro x hx
        have : x.id ≠ r.id := by
          intro he
          exact hnd.1 (he ▸ List.mem_map_of_mem (fun y => y.id) hx)
        simpa [hid] using fun he => this (hid ▸ he)
      rw [ht]
    · have ha : ((fun x : Registro => x.id != n) a) = true := by
        have : a.id ≠ r.id := by
          intro he
          exact hnd.1 (he ▸ List.mem_map_of_mem (fun y => y.id) hrt)
        simpa [hid] using fun he => this (hid ▸ he)
      rw [List.filter_cons_of_pos (by simpa using ha)]
      exact ((ih hnd.2 hrt).cons a).trans (List.Perm.swap r a _)

/-- C7: when registro ids are pairwise distinct and row `r` is present,
`delete_registro r.id` removes exactly the row `r`: the old table is a
permutation of `r` consed onto the new one, the new table is a sublist of
the old (order of the others kept), no row with that id remains, and the
`invernaderos` table is untouched. -/
theorem delete_registro_exact (db : DB) (r : Registro)
    (hnd : (db.registros.map (fun x => x.id)).Nodup) (hr : r ∈ db.registros) :
    db.registros.Perm (r :: (delete_registro db r.id).registros) ∧
    (delete_registro db r.id).registros.Sublist db.registros ∧
    (∀ x ∈ (delete_registro db r.id).registros, x.id ≠ r.id) ∧
    (delete_registro db r.id).invernaderos = db.invernaderos := by
  refine ⟨perm_cons_filter_ne hnd hr rfl, List.filter_sublist _, ?_, rfl⟩
  intro x hx
  have := (List.mem_filter.mp hx).2
  simpa using this

/-- C7 witness: deleting the reading with id 1 from a two-reading table
removes exactly that row and keeps the other reading and the greenhouse. -/
theorem delete_registro_exact_witness :
    ([⟨1, 1, 0, 20, 10, 90, 70, 400⟩, ⟨2, 1, 5, 21, 11, 91, 71, 410⟩] :
        List Registro).Perm
      (⟨1, 1, 0, 20, 10, 90, 70, 400⟩ ::
        (delete_registro
          ⟨[⟨1, "A"⟩],
           [⟨1, 1, 0, 20, 10, 90, 70, 400⟩, ⟨2, 1, 5, 21, 11, 91, 71, 410⟩], 2, 3⟩
          1).registros) ∧
    (delete_registro
        ⟨[⟨1, "A"⟩],
         [⟨1, 1, 0, 20, 10, 90, 70, 400⟩, ⟨2, 1, 5, 21, 11, 91, 71, 410⟩], 2, 3⟩
        1).invernaderos = [⟨1, "A"⟩] :=
  ⟨(delete_registro_exact
      ⟨[⟨1, "A"⟩],
       [⟨1, 1, 0, 20, 10, 90, 70, 400⟩, ⟨2, 1, 5, 21, 11, 91, 71, 410⟩], 2, 3⟩
      ⟨1, 1, 0, 20, 10, 90, 70, 400⟩ (by decide) (by decide)).1,
   (delete_registro_exact
      ⟨[⟨1, "A"⟩],
       [⟨1, 1, 0, 20, 10, 90, 70, 400⟩, ⟨2, 1, 5, 21, 11, 91, 71, 410⟩], 2, 3⟩
      ⟨1, 1, 0, 20, 10, 90, 70, 400⟩ (by decide) (by decide)).2.2.2⟩

/-- One loop iteration of the PDF table appends exactly the seven cells of
the reading, in the source's order, whatever the cursor position and the
page-break decision. -/
theorem emitRow_cells (p : Pdf) (row : RegistroRow) :
    (emitRow p row).cells = p.cells ++
      [fmtFecha row.fecha, row.invernadero, toString row.temp_max,
       toString row.temp_min, toString row.hum_max, toString row.hum_min,
       toString row.co2] := by
  unfold emitRow Pdf.cell Pdf.lnBy Pdf.addPage
  dsimp only
  split <;> simp

/-- Folding the row loop over a dataframe appends the rows' cells in order. -/
theorem foldl_emitRow_cells (df : List RegistroRow) (p : Pdf) :
    (df.foldl emitRow p).cells = p.cells ++
      df.flatMap (fun row =>
        [fmtFecha row.fecha, row.invernadero, toString row.temp_max,
         toString row.temp_min, toString row.hum_max, toString row.hum_min,
         toString row.co2]) := by
  induction df generalizing p with
  | nil => simp
  | cons row rest ih =>
    rw [List.foldl_cons, ih (emitRow p row), emitRow_cells]
    simp

/-- C9: `export_to_pdf` draws, after the fixed title, caption and header
cells, exactly one table row per reading of the filtered dataframe, its
cells in the order date, greenhouse name, temp max, temp min, humidity max,
humidity min, CO2. -/
theorem export_to_pdf_table (df : List RegistroRow) :
    (export_to_pdf df).cells =
      ["Reporte de Monitoreo de Invernaderos", "Generado el: <fecha actual>",
       "Datos Históricos Filtrados"] ++ pdfHeaderCols ++
      df.flatMap (fun row =>
        [fmtFecha row.fecha, row.invernadero, toString row.temp_max,
         toString row.temp_min, toString row.hum_max, toString row.hum_min,
         toString row.co2]) := by
  unfold export_to_pdf
  rw [foldl_emitRow_cells]
  simp [Pdf.cellLn, Pdf.cell, Pdf.lnBy, Pdf.addPage, pdfHeaderCols]

/-- The two same-day readings of the spec's aggregation example, with
(temp_max, temp_min) = (20, 10) and (30, 20). -/
def exampleDf : List RegistroRow :=
  [⟨1, "A", 0, 20, 10, 90, 70, 400⟩, ⟨2, "A", 100, 30, 20, 80, 60, 500⟩]

/-- C1 counterexample: on two same-day readings with (temp_max, temp_min)
= (20, 10) and (30, 20), the aggregation produces temp_max 30 and temp_min
10 — the max and the min — not the means 25 and 15 the claim asserts. -/
theorem aggregation_mean_counterexample :
    (df_grouped exampleDf).map
        (fun row => (row.fecha_dia, row.temp_max, row.temp_min)) =
      [(0, 30, 10)] ∧
    (30 : ℚ) ≠ (20 + 30) / 2 ∧ (10 : ℚ) ≠ (10 + 20) / 2 :=
  ⟨by decide, by norm_num, by norm_num⟩

/-- Every starting value is below the max fold of a list of rationals. -/
theorem le_foldl_max (xs : List ℚ) : ∀ x : ℚ, x ≤ xs.foldl max x := by
  induction xs with
  | nil => intro x; exact le_refl x
  | cons y ys ih => intro x; exact le_trans (le_max_left x y) (ih (max x y))

/-- The max fold of a list of rationals is one of its inputs. -/
theorem foldl_max_mem (xs : List ℚ) : ∀ x : ℚ, xs.foldl max x ∈ x :: xs := by
  induction xs with
  | nil => intro x; simp
  | cons y ys ih =>
    intro x
    rw [List.foldl_cons]
    rcases List.mem_cons.mp (ih (max x y)) with he | hm
    · rcases max_choice x y with h1 | h1
      · rw [he, h1]; exact List.mem_cons_self _ _
      · rw [he, h1]; exact List.mem_cons_of_mem _ (List.mem_cons_self _ _)
    · exact List.mem_cons_of_mem _ (List.mem_cons_of_mem _ hm)

/-- The max fold of a list of rationals bounds all its inputs. -/
theorem foldl_max_bound (xs : List ℚ) :
    ∀ x a : ℚ, a ∈ x :: xs → a ≤ xs.foldl max x := by
  induction xs with
  | nil =>
    intro x a ha
    rw [List.mem_singleton] at ha
    simp [ha]
  | cons y ys ih =>
    intro x a ha
    rw [List.foldl_cons]
    rcases List.mem_cons.mp ha with rfl | h
    · exact le_trans (le_max_left a y) (le_foldl_max ys (max a y))
    · rcases List.mem_cons.mp h with rfl | h2
      · exact le_trans (le_max_right x a) (le_foldl_max ys (max x a))
      · exact ih (max x y) a (List.mem_cons_of_mem _ h2)

/-- Every starting value is above the min fold of a list of rationals. -/
theorem foldl_min_le (xs : List ℚ) : ∀ x : ℚ, xs.foldl min x ≤ x := by
  induction xs with
  | nil => intro x; exact le_refl x
  | cons y ys ih => intro x; exact le_trans (ih (min x y)) (min_le_left x y)

/-- The min fold of a list of rationals is one of its inputs. -/
theorem foldl_min_mem (xs : List ℚ) : ∀ x : ℚ, xs.foldl min x ∈ x :: xs := by
  induction xs with
  | nil => intro x; simp
  | cons y ys ih =>
    intro x
    rw [List.foldl_cons]
    rcases List.mem_cons.mp (ih (min x y)) with he | hm
    · rcases min_choice x y with h1 | h1
      · rw [he, h1]; exact List.mem_cons_self _ _
      · rw [he, h1]; exact List.mem_cons_of_mem _ (List.mem_cons_self _ _)
    · exact List.mem_cons_of_mem _ (List.mem_cons_of_mem _ hm)

/-- The min fold of a list of rationals is below all its inputs. -/
theorem foldl_min_bound (xs : List ℚ) :
    ∀ x a : ℚ, a ∈ x :: xs → xs.foldl min x ≤ a := by
  induction xs with
  | nil =>
    intro x a ha
    rw [List.mem_singleton] at ha
    simp [ha]
  | cons y ys ih =>
    intro x a ha
    rw [List.foldl_cons]
    rcases List.mem_cons.mp ha with rfl | h
    · exact le_trans (foldl_min_le ys (min a y)) (min_le_left a y)
    · rcases List.mem_cons.mp h with rfl | h2
      · exact le_trans (foldl_min_le ys (min x a)) (min_le_right x a)
      · exact ih (min x y) a (List.mem_cons_of_mem _ h2)

/-- The pandas max aggregation returns a member of a nonempty column. -/
theorem maxOf_mem {l : List ℚ} (h : l ≠ []) : maxOf l ∈ l := by
  cases l with
  | nil => cases h rfl
  | cons x xs => exact foldl_max_mem xs x

/-- The pandas max aggregation bounds every entry of the column. -/
theorem le_maxOf {l : List ℚ} {a : ℚ} (h : a ∈ l) : a ≤ maxOf l := by
  cases l with
  | nil => cases h
  | cons x xs => exact foldl_max_bound xs x a h

/-- The pandas min aggregation returns a member of a nonempty column. -/
theorem minOf_mem {l : List ℚ} (h : l ≠ []) : minOf l ∈ l := by
  cases l with
  | nil => cases h rfl
  | cons x xs => exact foldl_min_mem xs x

/-- The pandas min aggregation is below every entry of the column. -/
theorem minOf_le {l : List ℚ} {a : ℚ} (h : a ∈ l) : minOf l ≤ a := by
  cases l with
  | nil => cases h
  | cons x xs => exact foldl_min_bound xs x a h

/-- The pandas mean aggregation of a nonempty column, times the column
length, is the column sum. -/
theorem meanOf_mul_length {l : List ℚ} (h : l ≠ []) :
    meanOf l * l.length = l.sum := by
  unfold meanOf
  rw [div_mul_cancel₀]
  exact Nat.cast_ne_zero.mpr (fun h0 => h (List.length_eq_zero.mp h0))

/-- Membership in the day-group list characterised by the underlying days. -/
theorem mem_groupDays {df : List RegistroRow} {d : Nat} :
    d ∈ groupDays df ↔ ∃ r ∈ df, dayOf r.fecha = d := by
  unfold groupDays
  rw [List.mem_insertionSort, List.mem_dedup, List.mem_map]

/-- C1 amended: the aggregation produces exactly one row per distinct
calendar day; its temp_max and hum_max are the maximum, its temp_min and
hum_min the minimum, and only its co2 the mean of the day's readings.  (On
the example readings {(20,10),(30,20)} this gives the single row
(temp_max, temp_min) = (30, 10), not the means (25, 15).) -/
theorem df_grouped_agg_spec (df : List RegistroRow) :
    ((df_grouped df).map (fun row => row.fecha_dia)).Nodup ∧
    (∀ r ∈ df, ∃ row ∈ df_grouped df, row.fecha_dia = dayOf r.fecha) ∧
    (∀ row ∈ df_grouped df,
      (∃ r ∈ groupFor df row.fecha_dia, r.temp_max = row.temp_max) ∧
      (∀ r ∈ groupFor df row.fecha_dia, r.temp_max ≤ row.temp_max) ∧
      (∃ r ∈ groupFor df row.fecha_dia, r.temp_min = row.temp_min) ∧
      (∀ r ∈ groupFor df row.fecha_dia, row.temp_min ≤ r.temp_min) ∧
      (∃ r ∈ groupFor df row.fecha_dia, r.hum_max = row.hum_max) ∧
      (∀ r ∈ groupFor df row.fecha_dia, r.hum_max ≤ row.hum_max) ∧
      (∃ r ∈ groupFor df row.fecha_dia, r.hum_min = row.hum_min) ∧
      (∀ r ∈ groupFor df row.fecha_dia, row.hum_min ≤ r.hum_min) ∧
      row.co2 * (groupFor df row.fecha_dia).length =
        ((groupFor df row.fecha_dia).map (fun r => r.co2)).sum) := by
  have hproj : ((df_grouped df).map (fun row => row.fecha_dia)) = groupDays df := by
    unfold df_grouped
    rw [List.map_map]
    exact List.map_id _
  refine ⟨?_, ?_, ?_⟩
  · rw [hproj]
    unfold groupDays
    exact (List.perm_insertionSort _ _).nodup_iff.mpr (List.nodup_dedup _)
  · intro r hr
    refine ⟨aggDay df (dayOf r.fecha), List.mem_map_of_mem _ ?_, rfl⟩
    exact mem_groupDays.mpr ⟨r, hr, rfl⟩
  · intro row hrow
    obtain ⟨d, hd, rfl⟩ := List.mem_map.mp hrow
    obtain ⟨r0, hr0, hday0⟩ := mem_groupDays.mp hd
    have hr0g : r0 ∈ groupFor df d :=
      List.mem_filter.mpr ⟨hr0, by simp [hday0]⟩
    have hne : groupFor df d ≠ [] := List.ne_nil_of_mem hr0g
    have hlen : ((groupFor df d).map (fun r => r.co2)).length =
        (groupFor df d).length := List.length_map _ _
    refine ⟨?_, ?_, ?_, ?_, ?_, ?_, ?_, ?_, ?_⟩
    · obtain ⟨r, hr, he⟩ := List.mem_map.mp
        (maxOf_mem (l := (groupFor df d).map (fun r => r.temp_max))
          (by simpa using hne))
      exact ⟨r, hr, he⟩
    · intro r hr
      exact le_maxOf (List.mem_map_of_mem _ hr)
    · obtain ⟨r, hr, he⟩ := List.mem_map.mp
        (minOf_mem (l := (groupFor df d).map (fun r => r.temp_min))
          (by simpa using hne))
      exact ⟨r, hr, he⟩
    · intro r hr
      exact minOf_le (List.mem_map_of_mem _ hr)
    · obtain ⟨r, hr, he⟩ := List.mem_map.mp
        (maxOf_mem (l := (groupFor df d).map (fun r => r.hum_max))
          (by simpa using hne))
      exact ⟨r, hr, he⟩
    · intro r hr
      exact le_maxOf (List.mem_map_of_mem _ hr)
    · obtain ⟨r, hr, he⟩ := List.mem_map.mp
        (minOf_mem (l := (groupFor df d).map (fun r => r.hum_min))
          (by simpa using hne))
      exact ⟨r, hr, he⟩
    · intro r hr
      exact minOf_le (List.mem_map_of_mem _ hr)
    · have := meanOf_mul_length (l := (groupFor df d).map (fun r => r.co2))
        (by simpa using hne)
      rw [hlen] at this
      exact this

/-- C1 amended witness: on the example dataframe, the reading with temp_max
20 is below the aggregated temp_max, and the aggregated co2 times the group
size equals the group's co2 sum. -/
theorem df_grouped_agg_spec_witness :
    (20 : ℚ) ≤ (aggDay exampleDf 0).temp_max ∧
    (aggDay exampleDf 0).co2 * (groupFor exampleDf 0).length =
      ((groupFor exampleDf 0).map (fun r => r.co2)).sum := by
  have hmem : aggDay exampleDf 0 ∈ df_grouped exampleDf := by
    have h : groupDays exampleDf = [0] := by decide
    unfold df_grouped
    rw [h]
    exact List.mem_singleton_self _
  exact
    ⟨((df_grouped_agg_spec exampleDf).2.2 (aggDay exampleDf 0) hmem).2.1
        ⟨1, "A", 0, 20, 10, 90, 70, 400⟩ (by decide),
     ((df_grouped_agg_spec exampleDf).2.2 (aggDay exampleDf 0) hmem).2.2.2.2.2.2.2.2⟩

/-- One operation whose `opOk` precondition holds preserves referential
integrity. -/
theorem consistent_execOp (db : DB) (op : Op)
    (hc : consistent db) (hok : opOk db op) : consistent (execOp db op) := by
  cases op with
  | addInv n =>
    show consistent (add_invernadero db n).2
    unfold add_invernadero
    by_cases h : db.invernaderos.any (fun i => i.nombre == n) = true
    · rw [if_pos h]; exact hc
    · rw [if_neg h]
      intro r hr
      obtain ⟨i, hi, he⟩ := hc r hr
      exact ⟨i, List.mem_append_left _ hi, he⟩
  | renameInv id n =>
    show consistent (rename_invernadero db id n).2
    unfold rename_invernadero
    by_cases h : (db.invernaderos.any (fun i => i.id == id) &&
        db.invernaderos.any (fun i => i.id != id && i.nombre == n)) = true
    · rw [if_pos h]; exact hc
    · rw [if_neg h]
      intro r hr
      obtain ⟨i, hi, he⟩ := hc r hr
      refine ⟨if i.id == id then { i with nombre := n } else i,
        List.mem_map_of_mem _ hi, ?_⟩
      by_cases hid : (i.id == id) = true
      · rw [if_pos hid]; exact he
      · rw [if_neg hid]; exact he
  | delInv id =>
    show consistent (delete_invernadero db id)
    unfold delete_invernadero
    by_cases h : db.invernaderos.any (fun i => i.id == id) = true
    · rw [if_pos h]
      intro r hr
      obtain ⟨hr0, hrne⟩ := List.mem_filter.mp hr
      obtain ⟨i, hi, he⟩ := hc r hr0
      refine ⟨i, List.mem_filter.mpr ⟨hi, ?_⟩, he⟩
      have hne : r.invernadero_id ≠ id := by simpa using hrne
      simpa [he] using hne
    · rw [if_neg h]; exact hc
  | addReg inv_id f a b c d e =>
    show consistent (add_registro db inv_id f a b c d e)
    intro r hr
    have hr' : r ∈ db.registros ++
        [⟨db.next_reg_id, inv_id, f, a, b, c, d, e⟩] := hr
    rcases List.mem_append.mp hr' with hl | hr2
    · exact hc r hl
    · obtain ⟨g, hg, hge⟩ := hok
      rw [List.mem_singleton] at hr2
      subst hr2
      exact ⟨g, hg, hge⟩
  | delReg rid =>
    show consistent (delete_registro db rid)
    intro r hr
    exact hc r (List.mem_filter.mp hr).1

/-- C2 amended: referential integrity holds after every sequence of
operations in which each `add_registro` names a greenhouse existing at the
moment of the call (which the UI guarantees by offering only the current
greenhouse list); it is an invariant of the other four operations
unconditionally.  `add_registro` alone does not enforce it, because its
connection leaves SQLite foreign keys off. -/
theorem consistent_execOps (db : DB) (ops : List Op)
    (hc : consistent db) (hl : legal db ops) : consistent (execOps db ops) := by
  induction ops generalizing db with
  | nil => exact hc
  | cons op rest ih =>
    obtain ⟨hok, hrest⟩ := hl
    exact ih (execOp db op) (consistent_execOp db op hc hok) hrest

/-- C2 counterexample: from the freshly initialised (empty) database, the
single operation `add_registro(1, ...)` — naming a greenhouse that does not
exist — succeeds and leaves a reading referencing no greenhouse:
`add_registro`'s connection never issues `PRAGMA foreign_keys = ON`, so the
foreign key is not enforced there. -/
theorem registro_orphan_counterexample :
    ¬ consistent (execOps DB.empty [Op.addReg 1 0 20 10 90 70 400]) := by decide

/-- C2 witness: the legal sequence add greenhouse "A", add a reading for it,
delete the greenhouse again, keeps the database consistent. -/
theorem consistent_execOps_witness :
    consistent (execOps DB.empty
      [Op.addInv "A", Op.addReg 1 0 20 10 90 70 400, Op.delInv 1]) :=
  consistent_execOps DB.empty
    [Op.addInv "A", Op.addReg 1 0 20 10 90 70 400, Op.delInv 1]
    (by decide)
    ⟨trivial, ⟨⟨1, "A"⟩, by decide, rfl⟩, trivial, trivial⟩

/-- The join keeps exactly the registros whose greenhouse exists: the
filterMap through `joinRow` has as many rows as the filter for an existing
greenhouse. -/
theorem length_filterMap_joinRow (db : DB) (l : List Registro) :
    (l.filterMap (joinRow db)).length =
      (l.filter
        (fun r => db.invernaderos.any (fun i => i.id == r.invernadero_id))).length := by
  induction l with
  | nil => rfl
  | cons r t ih =>
    by_cases h : (db.invernaderos.any (fun i => i.id == r.invernadero_id)) = true
    · obtain ⟨i, hi, hp⟩ := List.any_eq_true.mp h
      cases hf : db.invernaderos.find? (fun i => i.id == r.invernadero_id) with
      | none => exact absurd hp (List.find?_eq_none.mp hf i hi)
      | some j => simp [List.filterMap_cons, List.filter_cons, joinRow, hf, h, ih]
    · have hf : db.invernaderos.find? (fun i => i.id == r.invernadero_id) = none := by
        rw [List.find?_eq_none]
        intro i hi hp
        exact h (List.any_eq_true.mpr ⟨i, hi, hp⟩)
      simp [List.filterMap_cons, List.filter_cons, joinRow, hf, h, ih]

/-- C10: `get_registros` always returns its rows sorted by timestamp
descending; with no greenhouse filter (`None`) it behaves exactly as with
`0` (both are falsy, so every greenhouse's readings qualify); and readings
whose `invernadero_id` matches no greenhouse are silently dropped by the
inner join: the result has exactly one row per reading with an existing
greenhouse, and every returned row stems from such a reading. -/
theorem get_registros_spec (db : DB) (inv_id : Option Nat) :
    List.Sorted fechaGe (get_registros db inv_id) ∧
    get_registros db none = get_registros db (some 0) ∧
    (get_registros db none).length =
      (db.registros.filter
        (fun r => db.invernaderos.any (fun i => i.id == r.invernadero_id))).length ∧
    ∀ row ∈ get_registros db none,
      ∃ r ∈ db.registros, r.id = row.id ∧
        ∃ i ∈ db.invernaderos, i.id = r.invernadero_id := by
  refine ⟨List.sorted_insertionSort _ _, ?_, ?_, ?_⟩
  · unfold get_registros
    have h : regMatches none = regMatches (some 0) := by
      funext r
      simp [regMatches]
    rw [h]
  · unfold get_registros
    rw [(List.perm_insertionSort _ _).length_eq]
    have h : db.registros.filter (regMatches none) = db.registros :=
      List.filter_eq_self.mpr (fun a _ => rfl)
    rw [h, length_filterMap_joinRow]
  · intro row hrow
    rw [get_registros, List.mem_insertionSort] at hrow
    obtain ⟨r, hr, hjoin⟩ := List.mem_filterMap.mp hrow
    have hr0 : r ∈ db.registros := (List.mem_filter.mp hr).1
    unfold joinRow at hjoin
    cases hf : db.invernaderos.find? (fun i => i.id == r.invernadero_id) with
    | none => rw [hf] at hjoin; cases hjoin
    | some i =>
      rw [hf] at hjoin
      have hrow_eq := Option.some.inj hjoin
      refine ⟨r, hr0, ?_, i, List.mem_of_find?_eq_some hf, ?_⟩
      · rw [← hrow_eq]
      · simpa using List.find?_some hf

/-- A database with one greenhouse, one reading for it, and one orphan
reading (its `invernadero_id` 9 matches no greenhouse). -/
def exampleDb : DB :=
  ⟨[⟨1, "A"⟩],
   [⟨1, 1, 0, 20, 10, 90, 70, 400⟩, ⟨2, 9, 5, 21, 11, 91, 71, 410⟩], 2, 3⟩

/-- C10 witness: on the example database, the joined row with id 1 stems
from the reading with id 1, whose greenhouse 1 exists. -/
theorem get_registros_spec_witness :
    ∃ r ∈ exampleDb.registros, r.id = 1 ∧
      ∃ i ∈ exampleDb.invernaderos, i.id = r.invernadero_id :=
  (get_registros_spec exampleDb none).2.2.2
    ⟨1, "A", 0, 20, 10, 90, 70, 400⟩ (by decide)

/-- Successive `add_registro` calls leave the greenhouse table untouched
and append exactly the created readings, with consecutive AUTOINCREMENT
ids. -/
theorem addAll_unfold (inputs : List RegInput) (db : DB) (inv_id : Nat) :
    (addAll db inv_id inputs).invernaderos = db.invernaderos ∧
    (addAll db inv_id inputs).registros =
      db.registros ++ mkRegs db.next_reg_id inv_id inputs := by
  induction inputs generalizing db with
  | nil => exact ⟨rfl, by simp [addAll, mkRegs]⟩
  | cons inp rest ih =>
    have h := ih
      (add_registro db inv_id inp.fecha inp.t_max inp.t_min inp.h_max inp.h_min inp.co2)
    refine ⟨h.1, ?_⟩
    have hstep : addAll db inv_id (inp :: rest) =
        addAll (add_registro db inv_id inp.fecha inp.t_max inp.t_min inp.h_max
          inp.h_min inp.co2) inv_id rest := rfl
    rw [hstep, h.2]
    simp [add_registro, mkRegs, List.append_assoc]

/-- Every reading created by the bulk insert carries the inserted
greenhouse id. -/
theorem mkRegs_inv (inv_id : Nat) :
    ∀ (inputs : List RegInput) (start : Nat),
      ∀ r ∈ mkRegs start inv_id inputs, r.invernadero_id = inv_id := by
  intro inputs
  induction inputs with
  | nil =>
    intro start r hr
    cases hr
  | cons inp rest ih =>
    intro start r hr
    rcases List.mem_cons.mp hr with rfl | h
    · rfl
    · exact ih (start + 1) r h

/-- When every reading of a list joins successfully with the same
greenhouse, the join is just a map. -/
theorem filterMap_joinRow_eq_map {db : DB} {g : Invernadero}
    (l : List Registro) (h : ∀ r ∈ l, joinRow db r = some (rowOf g r)) :
    l.filterMap (joinRow db) = l.map (rowOf g) := by
  induction l with
  | nil => rfl
  | cons r t ih =>
    rw [List.filterMap_cons_some (h r (List.mem_cons_self r t)),
      List.map_cons, ih (fun x hx => h x (List.mem_cons_of_mem r hx))]

/-- C8: for an existing greenhouse (id nonzero, as AUTOINCREMENT ids are)
with no prior readings, inserting N readings via `add_registro` and querying
`get_registros` with that greenhouse's id returns exactly those N rows (as
a permutation: the query reorders them by timestamp descending). -/
theorem insert_then_query (db : DB) (g : Invernadero) (n : Nat)
    (inputs : List RegInput) (hn : n ≠ 0)
    (hg : db.invernaderos.find? (fun i => i.id == n) = some g)
    (hclean : ∀ r ∈ db.registros, r.invernadero_id ≠ n) :
    (get_registros (addAll db n inputs) (some n)).Perm
      ((mkRegs db.next_reg_id n inputs).map (rowOf g)) := by
  obtain ⟨hinv, hregs⟩ := addAll_unfold inputs db n
  unfold get_registros
  rw [hregs, List.filter_append]
  have h1 : db.registros.filter (regMatches (some n)) = [] := by
    apply List.filter_eq_nil_iff.mpr
    intro r hr
    simp [regMatches, hn, hclean r hr]
  have h2 : (mkRegs db.next_reg_id n inputs).filter (regMatches (some n)) =
      mkRegs db.next_reg_id n inputs := by
    apply List.filter_eq_self.mpr
    intro r hr
    simp [regMatches, mkRegs_inv n inputs db.next_reg_id r hr]
  rw [h1, h2, List.nil_append]
  have h3 : (mkRegs db.next_reg_id n inputs).filterMap
        (joinRow (addAll db n inputs)) =
      (mkRegs db.next_reg_id n inputs).map (rowOf g) := by
    apply filterMap_joinRow_eq_map
    intro r hr
    unfold joinRow
    rw [hinv, mkRegs_inv n inputs db.next_reg_id r hr, hg]
    rfl
  rw [h3]
  exact List.perm_insertionSort _ _

/-- Two readings to insert, with timestamps out of order. -/
def exampleInputs : List RegInput :=
  [⟨5, 20, 10, 90, 70, 400⟩, ⟨3, 21, 11, 91, 71, 410⟩]

/-- C8 witness: inserting two readings for greenhouse 1 into a database
holding only that (empty) greenhouse, then querying by id 1, returns
exactly those two rows. -/
theorem insert_then_query_witness :
    (get_registros (addAll ⟨[⟨1, "A"⟩], [], 2, 1⟩ 1 exampleInputs) (some 1)).Perm
      ((mkRegs 1 1 exampleInputs).map (rowOf ⟨1, "A"⟩)) :=
  insert_then_query ⟨[⟨1, "A"⟩], [], 2, 1⟩ ⟨1, "A"⟩ 1 exampleInputs
    (by decide) (by decide) (by decide)

end Hongos
